import Mathlib

/-!
Verification of the Python COPF/Clef SDK core
(src/sdks/python/clef/storage.py, copf/handler.py, copf/transport.py,
copf/registry.py) via a shallow embedding.

Python values flowing through the SDK are JSON-decoded data: None, bools,
ints, strings, lists and dicts.  We embed them as the inductive `Val`.
Python dicts are embedded as insertion-ordered association lists with
unique keys maintained by the update operation (`dictSet` replaces in
place, preserving the position of an existing key, and appends a fresh
key at the end — exactly CPython dict semantics).
-/

set_option autoImplicit false

namespace Copf

/-- JSON-like Python value: None, bool, int, str, list, dict.
(JSON numbers may also decode to floats; the claims under verification
never depend on float arithmetic, so numbers are embedded as integers.) -/
inductive Val where
  | null : Val
  | bool (b : Bool) : Val
  | int (n : Int) : Val
  | str (s : String) : Val
  | arr (xs : List Val) : Val
  | obj (fields : List (String × Val)) : Val
deriving Repr

/-- A Python dict with string keys (e.g. a stored value, an input payload),
embedded as an insertion-ordered association list. -/
abbrev Obj := List (String × Val)

mutual
/-- Python `==` on JSON-decoded values.  `None` equals only `None`;
bools compare equal to the ints 0/1 (`True == 1` in Python); lists
compare elementwise.  Dicts are compared fieldwise in order (CPython
dict `==` ignores insertion order; the claims under verification never
compare dicts whose key orders differ, so ordered comparison is faithful
on every value they touch). -/
def pyEq : Val → Val → Bool
  | .null, .null => true
  | .bool a, .bool b => a == b
  | .bool a, .int n => (if a then (1 : Int) else 0) == n
  | .int n, .bool b => n == (if b then (1 : Int) else 0)
  | .int a, .int b => a == b
  | .str a, .str b => a == b
  | .arr a, .arr b => pyEqList a b
  | .obj a, .obj b => pyEqFields a b
  | _, _ => false

def pyEqList : List Val → List Val → Bool
  | [], [] => true
  | a :: as, b :: bs => pyEq a b && pyEqList as bs
  | _, _ => false

def pyEqFields : List (String × Val) → List (String × Val) → Bool
  | [], [] => true
  | (k, a) :: as, (l, b) :: bs => k == l && pyEq a b && pyEqFields as bs
  | _, _ => false
end

/-- Python `d.get(k)` / `d[k]` lookup on a string-keyed dict: the first
(and, with unique keys, only) binding of `k`. -/
def dictGet {β : Type} (d : List (String × β)) (k : String) : Option β :=
  match d with
  | [] => none
  | (k', v) :: rest => if k' == k then some v else dictGet rest k

/-- Python `d[k] = v`: replace in place if `k` is bound (keeping its
position), otherwise append the new binding at the end. -/
def dictSet {β : Type} (d : List (String × β)) (k : String) (v : β) :
    List (String × β) :=
  match d with
  | [] => [(k, v)]
  | (k', v') :: rest =>
    if k' == k then (k, v) :: rest else (k', v') :: dictSet rest k v

/-- Python `del d[k]`: remove the binding of `k` (a no-op when absent;
the caller in `storage.py` guards with `if key in rel`). -/
def dictDel {β : Type} (d : List (String × β)) (k : String) :
    List (String × β) :=
  match d with
  | [] => []
  | (k', v') :: rest =>
    if k' == k then rest else (k', v') :: dictDel rest k

/-- Python `k in d`. -/
def dictMem {β : Type} (d : List (String × β)) (k : String) : Bool :=
  (dictGet d k).isSome

@[simp] theorem dictGet_nil {β : Type} (k : String) :
    dictGet ([] : List (String × β)) k = none := rfl

@[simp] theorem dictGet_cons {β : Type} (k' k : String) (v : β)
    (rest : List (String × β)) :
    dictGet ((k', v) :: rest) k =
      if k' == k then some v else dictGet rest k := rfl

theorem dictGet_dictSet_self {β : Type} (d : List (String × β)) (k : String)
    (v : β) : dictGet (dictSet d k v) k = some v := by
  induction d with
  | nil => simp [dictSet]
  | cons p rest ih =>
    obtain ⟨k', v'⟩ := p
    by_cases h : k' == k
    · simp [dictSet, h]
    · simp [dictSet, h, ih]

theorem dictGet_dictSet_ne {β : Type} (d : List (String × β)) (k k' : String)
    (v : β) (h : k ≠ k') : dictGet (dictSet d k v) k' = dictGet d k' := by
  induction d with
  | nil => simp [dictSet, dictGet, h]
  | cons p rest ih =>
    obtain ⟨k₀, v₀⟩ := p
    by_cases h₀ : k₀ = k
    · subst h₀
      have hne : ¬ (k₀ = k') := h
      simp [dictSet, dictGet, hne]
    · have h₀b : ¬ (k₀ == k) = true := by simpa using h₀
      simp only [dictSet, h₀b, if_false, dictGet]
      rw [ih]

theorem dictGet_dictDel_ne {β : Type} (d : List (String × β)) (k k' : String)
    (h : k ≠ k') : dictGet (dictDel d k) k' = dictGet d k' := by
  induction d with
  | nil => simp [dictDel]
  | cons p rest ih =>
    obtain ⟨k₀, v₀⟩ := p
    by_cases h₀ : k₀ = k
    · subst h₀
      have hne : ¬ (k₀ = k') := h
      simp [dictDel, dictGet, hne]
    · have h₀b : ¬ (k₀ == k) = true := by simpa using h₀
      simp only [dictDel, h₀b, if_false, dictGet]
      rw [ih]

/-!
Storage (src/sdks/python/clef/storage.py, class InMemoryStorage).

Data layout in the source: `relations[relation_name][key] = {value, meta}`.
`time.time()` (a float) is embedded as an explicit `now : Nat` argument to
`put`; no claim observes the clock itself, only that `put` refreshes the
entry's metadata.
-/

/-- One stored entry: `{"value": value, "meta": {"lastWrittenAt": time.time()}}`. -/
structure StoredEntry where
  value : Obj
  lastWrittenAt : Nat
deriving Repr

/-- One relation: Python dict from key to stored entry. -/
abbrev Relation := List (String × StoredEntry)

/-- The in-memory store: Python dict from relation name to relation. -/
structure InMemoryStorage where
  relations : List (String × Relation)
deriving Repr

namespace InMemoryStorage

/-- Fresh store: `self._relations = {}` in `__init__`. -/
def empty : InMemoryStorage := ⟨[]⟩

/-- `_ensure_relation`: insert an empty relation when the name is unbound,
then return the relation together with the (possibly updated) store. -/
def ensureRelation (s : InMemoryStorage) (relation : String) :
    Relation × InMemoryStorage :=
  match dictGet s.relations relation with
  | some rel => (rel, s)
  | none => ([], ⟨dictSet s.relations relation []⟩)

/-- `get`: `entry["value"] if entry else None`.  An entry dict always has
the two keys `value`/`meta`, hence is truthy, so the Python truthiness
test is exactly a `None` test here.  Mutating `self` via
`_ensure_relation` is returned as the second component. -/
def get (s : InMemoryStorage) (relation key : String) :
    Option Obj × InMemoryStorage :=
  let p := s.ensureRelation relation
  ((dictGet p.1 key).map StoredEntry.value, p.2)

/-- `put`: `rel[key] = {"value": value, "meta": {"lastWrittenAt": time.time()}}`.
The in-place mutation of the relation dict is reflected by writing the
updated relation back under its name. -/
def put (s : InMemoryStorage) (relation key : String) (value : Obj)
    (now : Nat) : InMemoryStorage :=
  let p := s.ensureRelation relation
  ⟨dictSet p.2.relations relation (dictSet p.1 key ⟨value, now⟩)⟩

/-- `delete`: remove the key if present and report whether it existed. -/
def delete (s : InMemoryStorage) (relation key : String) :
    Bool × InMemoryStorage :=
  let p := s.ensureRelation relation
  if dictMem p.1 key then
    (true, ⟨dictSet p.2.relations relation (dictDel p.1 key)⟩)
  else
    (false, p.2)

/-- One conjunct of the find filter: `r.get(k) == v` in Python, where
`r.get(k)` yields `None` when the field is absent. -/
def fieldMatches (r : Obj) (k : String) (v : Val) : Bool :=
  pyEq ((dictGet r k).getD Val.null) v

/-- `matchesArgs r args` is `all(r.get(k) == v for k, v in args.items())`. -/
def matchesArgs (r : Obj) (args : Obj) : Bool :=
  args.all fun p => fieldMatches r p.1 p.2

/-- `find`: collect every entry's value (dict iteration order = insertion
order), then, when `args` is truthy (present AND a non-empty dict — the
source tests `if args:`), keep the values matching every filter pair. -/
def find (s : InMemoryStorage) (relation : String) (args : Option Obj) :
    List Obj × InMemoryStorage :=
  let p := s.ensureRelation relation
  let results := p.1.map fun q => q.2.value
  match args with
  | some f =>
    if f.isEmpty then (results, p.2)
    else (results.filter fun r => matchesArgs r f, p.2)
  | none => (results, p.2)

end InMemoryStorage

/-!
Handler (src/sdks/python/copf/handler.py, class ConceptHandler).

A concrete handler is a Python object; `getattr(self, action, None)`
resolves the name against the subclass's attributes and, failing that,
against the inherited base-class method `handle` itself.  We embed the
attribute a lookup can produce as `PyAttr`:

* `asyncMethod f` — an `async def m(self, input, storage)` action; its
  body may return any value, raise, and update the storage, so `f` maps
  `(input, storage)` to `Except exceptionName (result, storage)`;
* `syncAttr` — any attribute that is not a coroutine function
  (plain methods, data attributes);
* `inheritedHandle` — the base-class coroutine function `handle` itself,
  whose signature is `(action, input, storage)`: calling it with the two
  arguments `(input, storage)` raises
  `TypeError: missing 1 required positional argument` before any body runs.

Exceptions are embedded as `Except String`, the string naming the Python
exception class.
-/

/-- A Python attribute as seen by the dispatch code. -/
inductive PyAttr where
  | asyncMethod (f : Val → InMemoryStorage → Except String (Val × InMemoryStorage))
  | syncAttr
  | inheritedHandle

/-- A concrete handler instance: its own (subclass) attributes by name.
The inherited `handle` needs no entry — `getattrHandler` supplies it. -/
structure ConceptHandler where
  attrs : List (String × PyAttr)

/-- `getattr(self, action, None)`: the subclass attribute when declared,
else the inherited `handle` method, else `None`.  (Object dunders such as
`__init__` can be listed in `attrs` as `syncAttr` when a scenario needs
them; none is a coroutine function.) -/
def getattrHandler (h : ConceptHandler) (name : String) : Option PyAttr :=
  match dictGet h.attrs name with
  | some a => some a
  | none => if name == "handle" then some .inheritedHandle else none

/-- `inspect.iscoroutinefunction`: true exactly for `async def` functions —
declared actions and the inherited `handle`. -/
def isCoroutineFunction : PyAttr → Bool
  | .asyncMethod _ => true
  | .syncAttr => false
  | .inheritedHandle => true

/-- `await method(input, storage)`: run the action body; calling the
3-parameter bound method `handle` with 2 arguments raises `TypeError`
at the call itself.  (`syncAttr` is unreachable here: dispatch already
filtered non-coroutine attributes.) -/
def callAction (a : PyAttr) (input : Val) (storage : InMemoryStorage) :
    Except String (Val × InMemoryStorage) :=
  match a with
  | .asyncMethod f => f input storage
  | .inheritedHandle => .error "TypeError"
  | .syncAttr => .error "TypeError"

/-- A single quote character, used by the source's f-strings
`f"Action {action!r} ..."`-style messages. -/
def sq : String := String.singleton (Char.ofNat 39)

/-- Shorthand for the error dicts the dispatcher builds:
`{"variant": "error", "message": msg}`. -/
def errDict (msg : String) : Val :=
  .obj [("variant", .str "error"), ("message", .str msg)]

/-- `isinstance(result, dict) and "variant" in result`. -/
def isDictWithVariant : Val → Bool
  | .obj fields => dictMem fields "variant"
  | _ => false

namespace ConceptHandler

/-- `ConceptHandler.handle(action, input, storage)`: resolve the action
name, check it is a coroutine function, invoke it, validate the result
shape, and pass the result through unchanged; contract failures become
`{"variant": "error", "message": ...}` return values, never exceptions. -/
def handle (h : ConceptHandler) (action : String) (input : Val)
    (storage : InMemoryStorage) : Except String (Val × InMemoryStorage) :=
  match getattrHandler h action with
  | none => .ok (errDict ("Unknown action: " ++ action), storage)
  | some method =>
    if isCoroutineFunction method then
      match callAction method input storage with
      | .error e => .error e
      | .ok (result, storage') =>
        if isDictWithVariant result then .ok (result, storage')
        else .ok (errDict ("Action " ++ sq ++ action ++ sq ++
          " must return dict with " ++ sq ++ "variant" ++ sq ++ " key"),
          storage')
    else
      .ok (errDict ("Action " ++ sq ++ action ++ sq ++ " must be async"),
        storage)

end ConceptHandler

/-!
Registry (src/sdks/python/copf/registry.py) and transport request handlers
(src/sdks/python/copf/transport.py, `_handle_invoke` / `_handle_query`).

The process-global `_REGISTRY` dict is passed explicitly.  Python mutates
the registered storage object in place through the shared reference; the
embedding reflects that by writing the updated storage back under the
same concept key.  `str(uuid.uuid4())` and the strftime timestamp are
embedded as explicit string arguments.
-/

/-- `_REGISTRY`: concept URI → (handler instance, storage instance). -/
abbrev Registry := List (String × (ConceptHandler × InMemoryStorage))

/-- The `@register(uri, storage=None)` decorator body:
`_REGISTRY[uri] = (instance, storage or fresh InMemoryStorage)`. -/
def register (reg : Registry) (uri : String) (h : ConceptHandler)
    (storage : Option InMemoryStorage) : Registry :=
  dictSet reg uri (h, storage.getD InMemoryStorage.empty)

/-- Python `str()` as used by the f-string
`f"Unknown concept: {concept_uri}"`.  Atoms render exactly as CPython
does; container reprs are abbreviated — no claim inspects the message of
a completion whose concept identifier is a list or dict. -/
def pyStr : Val → String
  | .null => "None"
  | .bool true => "True"
  | .bool false => "False"
  | .int n => toString n
  | .str s => s
  | .arr _ => "[...]"
  | .obj _ => "\x7b...\x7d"

/-- `body.get(k, default)` on the decoded JSON body. -/
def pyBodyGetD (body : Obj) (k : String) (d : Val) : Val :=
  (dictGet body k).getD d

/-- `result.get(k)` on the handler's result.  On a non-dict Python would
raise AttributeError; the call site is unreachable with a non-dict
because `handle` only returns dicts (theorem `handle_ok_shape`). -/
def pyValGet (v : Val) (k : String) : Option Val :=
  match v with
  | .obj fields => dictGet fields k
  | _ => none

/-- `_REGISTRY.get(concept_uri)`, returning the string key alongside the
entry so the storage update can be written back.  Registry keys are the
strings passed to `register(uri)`; a non-string identifier never equals
a string dict key, so its lookup misses. -/
def lookupRegistry (reg : Registry) (c : Val) :
    Option (String × ConceptHandler × InMemoryStorage) :=
  match c with
  | .str s => (dictGet reg s).map fun e => (s, e.1, e.2)
  | _ => none

/-- An ActionCompletion as built by `_handle_invoke`: a dict with these
eight fixed keys. -/
structure ActionCompletion where
  id : Val
  concept : Val
  action : Val
  input : Val
  variant : Val
  output : Val
  flow : Val
  timestamp : String
deriving Repr

/-- `_handle_invoke(body)`: decode fields with defaults, look the concept
up, and either synthesize an unknown-concept error completion or run the
handler dispatch and wrap its result.  A non-string action name reaching
`getattr` raises TypeError; handler exceptions propagate. -/
def handleInvoke (reg : Registry) (body : Obj)
    (freshId freshFlow ts : String) :
    Except String (ActionCompletion × Registry) :=
  let concept := pyBodyGetD body "concept" (.str "")
  let action := pyBodyGetD body "action" (.str "")
  let inputData := pyBodyGetD body "input" (.obj [])
  let flow := pyBodyGetD body "flow" (.str freshFlow)
  let invocationId := pyBodyGetD body "id" (.str freshId)
  match lookupRegistry reg concept with
  | none =>
    .ok ({ id := invocationId, concept := concept, action := action,
           input := inputData, variant := .str "error",
           output := .obj [("variant", .str "error"),
             ("message", .str ("Unknown concept: " ++ pyStr concept))],
           flow := flow, timestamp := ts }, reg)
  | some (cid, handler, storage) =>
    match action with
    | .str a =>
      match handler.handle a inputData storage with
      | .error e => .error e
      | .ok (result, storage') =>
        let variant := (pyValGet result "variant").getD (.str "ok")
        .ok ({ id := invocationId, concept := concept, action := action,
               input := inputData, variant := variant, output := result,
               flow := flow, timestamp := ts },
             dictSet reg cid (handler, storage'))
    | _ => .error "TypeError"

/-- Python truthiness of a JSON-decoded value. -/
def pyTruthy : Val → Bool
  | .null => false
  | .bool b => b
  | .int n => n != 0
  | .str s => s ≠ ""
  | .arr xs => !xs.isEmpty
  | .obj fields => !fields.isEmpty

/-- Coerce the decoded `args` field to `find`'s `dict | None` parameter.
A falsy non-dict fails the source's `if args:` test exactly like `None`
(no filtering), while a truthy non-dict raises AttributeError at
`args.items()`. -/
def toFindArgs : Val → Except String (Option Obj)
  | .null => .ok none
  | .obj fields => .ok (some fields)
  | v => if pyTruthy v then .error "AttributeError" else .ok none

/-- `_handle_query(body)`: unknown concepts yield `[]`; otherwise
delegate to the bound storage's `find`.  A non-string relation name is a
hashable Python dict key disjoint from every string-named relation, and
nothing in this SDK ever writes such a relation, so its `find` result is
the empty list. -/
def handleQuery (reg : Registry) (body : Obj) :
    Except String (List Obj × Registry) :=
  let concept := pyBodyGetD body "concept" (.str "")
  let relation := pyBodyGetD body "relation" (.str "")
  let args := pyBodyGetD body "args" .null
  match lookupRegistry reg concept with
  | none => .ok ([], reg)
  | some (cid, handler, storage) =>
    match toFindArgs args with
    | .error e => .error e
    | .ok fargs =>
      match relation with
      | .str r =>
        let p := storage.find r fargs
        .ok (p.1, dictSet reg cid (handler, p.2))
      | _ => .ok ([], dictSet reg cid (handler, storage))

/-!
Helper lemmas about the storage embedding.
-/

namespace InMemoryStorage

theorem ensureRelation_fst (s : InMemoryStorage) (r : String) :
    (s.ensureRelation r).1 = (dictGet s.relations r).getD [] := by
  unfold ensureRelation
  cases dictGet s.relations r <;> rfl

/-- The observable result of `get` depends only on the relation's
current binding. -/
theorem get_fst (s : InMemoryStorage) (r k : String) :
    (s.get r k).1 =
      (dictGet ((dictGet s.relations r).getD []) k).map StoredEntry.value := by
  unfold get ensureRelation
  cases hrel : dictGet s.relations r <;> simp [hrel]

/-- The observable result of `delete` depends only on the relation's
current binding. -/
theorem delete_fst (s : InMemoryStorage) (r k : String) :
    (s.delete r k).1 = dictMem ((dictGet s.relations r).getD []) k := by
  unfold delete ensureRelation
  cases hrel : dictGet s.relations r with
  | none =>
    by_cases hm : dictMem ([] : Relation) k <;> simp [hrel, hm]
  | some rel =>
    by_cases hm : dictMem rel k <;> simp [hrel, hm]

/-- The observable result of `find` depends only on the relation's
current binding. -/
theorem find_fst (s : InMemoryStorage) (r : String) (args : Option Obj) :
    (s.find r args).1 =
      let results := ((dictGet s.relations r).getD []).map fun q => q.2.value
      match args with
      | some f =>
        if f.isEmpty then results
        else results.filter fun v => matchesArgs v f
      | none => results := by
  unfold find ensureRelation
  cases hrel : dictGet s.relations r with
  | none =>
    cases args with
    | none => simp [hrel]
    | some f => by_cases h : f.isEmpty <;> simp [hrel, h]
  | some rel =>
    cases args with
    | none => simp [hrel]
    | some f => by_cases h : f.isEmpty <;> simp [hrel, h]

/-- After `put r k`, the relation `r` is bound to the updated dict. -/
theorem relations_put_self (s : InMemoryStorage) (r k : String) (v : Obj)
    (now : Nat) :
    dictGet (s.put r k v now).relations r =
      some (dictSet ((dictGet s.relations r).getD []) k ⟨v, now⟩) := by
  unfold put
  rw [dictGet_dictSet_self]
  rw [ensureRelation_fst]

/-- `put` into relation `r1` leaves every other relation's binding. -/
theorem relations_put_ne (s : InMemoryStorage) (r1 r2 k : String) (v : Obj)
    (now : Nat) (h : r1 ≠ r2) :
    dictGet (s.put r1 k v now).relations r2 = dictGet s.relations r2 := by
  unfold put ensureRelation
  cases hrel : dictGet s.relations r1 with
  | some rel => simp [dictGet_dictSet_ne _ _ _ _ h]
  | none => simp [dictGet_dictSet_ne _ _ _ _ h]

/-- `delete` in relation `r1` leaves every other relation's binding. -/
theorem relations_delete_ne (s : InMemoryStorage) (r1 r2 k : String)
    (h : r1 ≠ r2) :
    dictGet ((s.delete r1 k).2).relations r2 = dictGet s.relations r2 := by
  unfold delete ensureRelation
  cases hrel : dictGet s.relations r1 with
  | some rel =>
    by_cases hm : dictMem rel k <;>
      simp [hm, dictGet_dictSet_ne _ _ _ _ h]
  | none =>
    by_cases hm : dictMem ([] : Relation) k <;>
      simp [hm, dictGet_dictSet_ne _ _ _ _ h]

end InMemoryStorage

/-!
Claim theorems for the storage component.
-/

/-- C5: for every storage state, relation `r`, key `k` and value `v`,
immediately after `put(r, k, v)`, `get(r, k)` returns exactly `v`;
consequently `put(r, k, v1)` followed by `put(r, k, v2)` leaves
`get(r, k)` equal to `v2` — the later write fully overwrites the
earlier one. -/
theorem put_get_roundtrip (s : Copf.InMemoryStorage) (r k : String)
    (v : Copf.Obj) (now : Nat) :
    ((s.put r k v now).get r k).1 = some v ∧
    ∀ v1 v2 : Copf.Obj, ∀ n1 n2 : Nat,
      (((s.put r k v1 n1).put r k v2 n2).get r k).1 = some v2 := by
  constructor
  · rw [Copf.InMemoryStorage.get_fst, Copf.InMemoryStorage.relations_put_self]
    simp [Copf.dictGet_dictSet_self]
  · intro v1 v2 n1 n2
    rw [Copf.InMemoryStorage.get_fst, Copf.InMemoryStorage.relations_put_self]
    simp [Copf.dictGet_dictSet_self]

/-- C8: relations within one storage instance are isolated — for distinct
relation names `r1 ≠ r2`, a `put` (or `delete`) of a key in `r1` leaves
the results of every `get` and `find` on `r2` unchanged. -/
theorem relations_isolated (s : Copf.InMemoryStorage) (r1 r2 k k2 : String)
    (v : Copf.Obj) (now : Nat) (args : Option Copf.Obj) (h : r1 ≠ r2) :
    (((s.put r1 k v now).get r2 k2).1 = (s.get r2 k2).1) ∧
    (((s.put r1 k v now).find r2 args).1 = (s.find r2 args).1) ∧
    ((((s.delete r1 k).2).get r2 k2).1 = (s.get r2 k2).1) ∧
    ((((s.delete r1 k).2).find r2 args).1 = (s.find r2 args).1) := by
  refine ⟨?_, ?_, ?_, ?_⟩
  · rw [Copf.InMemoryStorage.get_fst, Copf.InMemoryStorage.get_fst,
      Copf.InMemoryStorage.relations_put_ne _ _ _ _ _ _ h]
  · rw [Copf.InMemoryStorage.find_fst, Copf.InMemoryStorage.find_fst,
      Copf.InMemoryStorage.relations_put_ne _ _ _ _ _ _ h]
  · rw [Copf.InMemoryStorage.get_fst, Copf.InMemoryStorage.get_fst,
      Copf.InMemoryStorage.relations_delete_ne _ _ _ _ h]
  · rw [Copf.InMemoryStorage.find_fst, Copf.InMemoryStorage.find_fst,
      Copf.InMemoryStorage.relations_delete_ne _ _ _ _ h]

/-!
Traces of storage operations, for the never-written claims: any sequence
of `get`/`put`/`delete`/`find` calls against one `InMemoryStorage`
instance, starting from the fresh store built by `__init__`.
-/

/-- One call against the storage API. -/
inductive StorageOp where
  | put (r k : String) (v : Obj) (now : Nat)
  | delete (r k : String)
  | get (r k : String)
  | find (r : String) (args : Option Obj)

/-- The state effect of one call (`get`/`find` still thread the store
through because `_ensure_relation` may insert an empty relation). -/
def applyOp (s : InMemoryStorage) : StorageOp → InMemoryStorage
  | .put r k v now => s.put r k v now
  | .delete r k => (s.delete r k).2
  | .get r k => (s.get r k).2
  | .find r args => (s.find r args).2

/-- Run a call sequence from a given store. -/
def runOps (s : InMemoryStorage) (ops : List StorageOp) : InMemoryStorage :=
  ops.foldl applyOp s

/-- Does the call write the key `k` of relation `r`?  Only `put` writes. -/
def writesKey : StorageOp → String → String → Bool
  | .put r' k' _ _, r, k => r' == r && k' == k
  | _, _, _ => false

/-- Does the call write into relation `r` at all? -/
def writesRel : StorageOp → String → Bool
  | .put r' _ _ _, r => r' == r
  | _, _ => false

/-- The entry currently bound to key `k` of relation `r` (absent when the
relation itself is absent). -/
def entryAt (s : InMemoryStorage) (r k : String) : Option StoredEntry :=
  dictGet ((dictGet s.relations r).getD []) k

/-- The relation currently bound to `r`, empty when absent. -/
def relAt (s : InMemoryStorage) (r : String) : Relation :=
  (dictGet s.relations r).getD []

theorem dictGet_dictDel_of_none {β : Type} (d : List (String × β))
    (k' k : String) (h : dictGet d k = none) :
    dictGet (dictDel d k') k = none := by
  induction d with
  | nil => simp [dictDel]
  | cons p rest ih =>
    obtain ⟨k₀, v₀⟩ := p
    simp only [dictGet] at h
    by_cases h₀ : k₀ == k
    · simp [h₀] at h
    · simp only [h₀, if_false] at h
      by_cases h₁ : k₀ == k'
      · simpa [dictDel, h₁] using h
      · simp [dictDel, h₁, dictGet, h₀, ih h]

theorem relAt_ensure (s : InMemoryStorage) (r' r : String) :
    relAt (s.ensureRelation r').2 r = relAt s r := by
  unfold InMemoryStorage.ensureRelation relAt
  cases hrel : dictGet s.relations r' with
  | some rel => rfl
  | none =>
    by_cases h : r' = r
    · subst h
      simp [dictGet_dictSet_self, hrel]
    · simp [dictGet_dictSet_ne _ _ _ _ h]

theorem relAt_put_self (s : InMemoryStorage) (r k : String) (v : Obj)
    (now : Nat) :
    relAt (s.put r k v now) r = dictSet (relAt s r) k ⟨v, now⟩ := by
  unfold relAt
  rw [InMemoryStorage.relations_put_self]
  rfl

theorem relAt_put_ne (s : InMemoryStorage) (r' r k : String) (v : Obj)
    (now : Nat) (h : r' ≠ r) :
    relAt (s.put r' k v now) r = relAt s r := by
  unfold relAt
  rw [InMemoryStorage.relations_put_ne _ _ _ _ _ _ h]

theorem relAt_delete_self (s : InMemoryStorage) (r k : String) :
    relAt (s.delete r k).2 r =
      if dictMem (relAt s r) k then dictDel (relAt s r) k else relAt s r := by
  unfold InMemoryStorage.delete
  have h1 : (s.ensureRelation r).1 = relAt s r :=
    InMemoryStorage.ensureRelation_fst s r
  by_cases hm : dictMem (relAt s r) k
  · simp only [h1, hm, if_true]
    unfold relAt
    rw [dictGet_dictSet_self]
    rfl
  · simp only [h1, hm, if_false]
    exact relAt_ensure s r r

theorem relAt_delete_ne (s : InMemoryStorage) (r' r k : String)
    (h : r' ≠ r) : relAt (s.delete r' k).2 r = relAt s r := by
  unfold relAt
  rw [InMemoryStorage.relations_delete_ne _ _ _ _ h]

theorem relAt_get (s : InMemoryStorage) (r' k' r : String) :
    relAt (s.get r' k').2 r = relAt s r := by
  unfold InMemoryStorage.get
  exact relAt_ensure s r' r

theorem relAt_find (s : InMemoryStorage) (r' r : String)
    (args : Option Obj) : relAt (s.find r' args).2 r = relAt s r := by
  unfold InMemoryStorage.find
  cases args with
  | none => exact relAt_ensure s r' r
  | some f =>
    by_cases h : f.isEmpty <;> simp only [h, if_true, if_false] <;>
      exact relAt_ensure s r' r

/-- Any call that does not write key `(r, k)` preserves its absence. -/
theorem entryAt_applyOp_none (s : InMemoryStorage) (r k : String)
    (op : StorageOp) (hw : writesKey op r k = false)
    (h : entryAt s r k = none) : entryAt (applyOp s op) r k = none := by
  have hent : entryAt s r k = dictGet (relAt s r) k := rfl
  cases op with
  | put r' k' v now =>
    by_cases hr : r' = r
    · subst hr
      have hk : k' ≠ k := by
        simp only [writesKey, Bool.and_eq_false_iff] at hw
        rcases hw with hw | hw
        · simp at hw
        · simpa using hw
      show dictGet (relAt (s.put r' k' v now) r') k = none
      rw [relAt_put_self, dictGet_dictSet_ne _ _ _ _ hk]
      exact h
    · show dictGet (relAt (s.put r' k' v now) r) k = none
      rw [relAt_put_ne _ _ _ _ _ _ hr]
      exact h
  | delete r' k' =>
    by_cases hr : r' = r
    · subst hr
      show dictGet (relAt (s.delete r' k').2 r') k = none
      rw [relAt_delete_self]
      by_cases hm : dictMem (relAt s r') k'
      · simp only [hm, if_true]
        exact dictGet_dictDel_of_none _ _ _ h
      · simp only [hm, if_false]
        exact h
    · show dictGet (relAt (s.delete r' k').2 r) k = none
      rw [relAt_delete_ne _ _ _ _ hr]
      exact h
  | get r' k' =>
    show dictGet (relAt (s.get r' k').2 r) k = none
    rw [relAt_get]
    exact h
  | find r' args =>
    show dictGet (relAt (s.find r' args).2 r) k = none
    rw [relAt_find]
    exact h

/-- Any call that does not write into relation `r` keeps it empty. -/
theorem relAt_applyOp_empty (s : InMemoryStorage) (r : String)
    (op : StorageOp) (hw : writesRel op r = false)
    (h : relAt s r = []) : relAt (applyOp s op) r = [] := by
  cases op with
  | put r' k' v now =>
    have hr : r' ≠ r := by simpa [writesRel] using hw
    show relAt (s.put r' k' v now) r = []
    rw [relAt_put_ne _ _ _ _ _ _ hr]
    exact h
  | delete r' k' =>
    by_cases hr : r' = r
    · subst hr
      show relAt (s.delete r' k').2 r' = []
      rw [relAt_delete_self, h]
      simp [dictMem, dictGet]
    · show relAt (s.delete r' k').2 r = []
      rw [relAt_delete_ne _ _ _ _ hr]
      exact h
  | get r' k' =>
    show relAt (s.get r' k').2 r = []
    rw [relAt_get]
    exact h
  | find r' args =>
    show relAt (s.find r' args).2 r = []
    rw [relAt_find]
    exact h

theorem entryAt_runOps_none (r k : String) (ops : List StorageOp)
    (hops : ∀ op ∈ ops, writesKey op r k = false) (s : InMemoryStorage)
    (h : entryAt s r k = none) : entryAt (runOps s ops) r k = none := by
  induction ops generalizing s with
  | nil => exact h
  | cons op rest ih =>
    have h1 : writesKey op r k = false := hops op (List.mem_cons_self op rest)
    have h2 : ∀ o ∈ rest, writesKey o r k = false := fun o ho =>
      hops o (List.mem_cons_of_mem op ho)
    exact ih h2 (applyOp s op) (entryAt_applyOp_none s r k op h1 h)

theorem relAt_runOps_empty (r : String) (ops : List StorageOp)
    (hops : ∀ op ∈ ops, writesRel op r = false) (s : InMemoryStorage)
    (h : relAt s r = []) : relAt (runOps s ops) r = [] := by
  induction ops generalizing s with
  | nil => exact h
  | cons op rest ih =>
    have h1 : writesRel op r = false := hops op (List.mem_cons_self op rest)
    have h2 : ∀ o ∈ rest, writesRel o r = false := fun o ho =>
      hops o (List.mem_cons_of_mem op ho)
    exact ih h2 (applyOp s op) (relAt_applyOp_empty s r op h1 h)

/-- C6: after any sequence of storage calls starting from a fresh store
that never wrote key `k` of relation `r`, `get(r, k)` returns absent and
`delete(r, k)` returns false (neither branch raises — both are total
functions of the state); and `find` on a relation no call ever wrote
returns the empty sequence, with or without a filter. -/
theorem never_written (r k : String) (ops : List StorageOp) :
    ((∀ op ∈ ops, writesKey op r k = false) →
      ((runOps InMemoryStorage.empty ops).get r k).1 = none ∧
      ((runOps InMemoryStorage.empty ops).delete r k).1 = false) ∧
    ((∀ op ∈ ops, writesRel op r = false) →
      ∀ args : Option Obj,
        ((runOps InMemoryStorage.empty ops).find r args).1 = []) := by
  constructor
  · intro hops
    have habs : entryAt (runOps InMemoryStorage.empty ops) r k = none :=
      entryAt_runOps_none r k ops hops InMemoryStorage.empty rfl
    constructor
    · rw [InMemoryStorage.get_fst]
      show (entryAt (runOps InMemoryStorage.empty ops) r k).map
        StoredEntry.value = none
      rw [habs]
      rfl
    · rw [InMemoryStorage.delete_fst]
      show dictMem (relAt (runOps InMemoryStorage.empty ops) r) k = false
      have : dictGet (relAt (runOps InMemoryStorage.empty ops) r) k = none :=
        habs
      simp [dictMem, this]
  · intro hops args
    have hemp : relAt (runOps InMemoryStorage.empty ops) r = [] :=
      relAt_runOps_empty r ops hops InMemoryStorage.empty rfl
    rw [InMemoryStorage.find_fst]
    show (match args with
      | some f =>
        if f.isEmpty then
          (relAt (runOps InMemoryStorage.empty ops) r).map fun q => q.2.value
        else ((relAt (runOps InMemoryStorage.empty ops) r).map
          fun q => q.2.value).filter fun v => InMemoryStorage.matchesArgs v f
      | none =>
        (relAt (runOps InMemoryStorage.empty ops) r).map
          fun q => q.2.value) = []
    rw [hemp]
    cases args with
    | none => rfl
    | some f => by_cases hf : f.isEmpty <;> simp [hf]

/-- Witness for C6: a trace that writes relation "a" and touches "b" with
reads and a delete, but never writes `("b", "y")`; afterwards `get` on
`("b", "y")` is absent, `delete` returns false, and `find` on the
never-written relation "c" is empty. -/
theorem never_written_witness :
    ((∀ op ∈ [StorageOp.put "a" "x" [("f", Val.int 1)] 3,
        StorageOp.get "b" "y", StorageOp.delete "b" "y",
        StorageOp.find "b" (some [("g", Val.null)])],
      writesKey op "b" "y" = false) ∧
     ((runOps InMemoryStorage.empty
        [StorageOp.put "a" "x" [("f", Val.int 1)] 3,
         StorageOp.get "b" "y", StorageOp.delete "b" "y",
         StorageOp.find "b" (some [("g", Val.null)])]).get "b" "y").1 =
       none) ∧
    ((runOps InMemoryStorage.empty
        [StorageOp.put "a" "x" [("f", Val.int 1)] 3,
         StorageOp.get "b" "y", StorageOp.delete "b" "y",
         StorageOp.find "b" (some [("g", Val.null)])]).find "c" none).1 =
      [] := by
  refine ⟨⟨by decide, ?_⟩, ?_⟩
  · exact ((never_written "b" "y" _).1 (by decide)).1
  · exact (never_written "c" "y" _).2 (by decide) none

/-!
The find filter and Python `None`.  `r.get(k)` yields `None` for an
absent field, and `None == None` holds in Python, so a filter pair whose
value is null matches precisely the values whose field is absent or
explicitly null — an absent field does NOT always fail the filter.
-/

/-- Is the value the Python `None`? -/
def isNull : Val → Bool
  | .null => true
  | _ => false

theorem pyEq_null_left (v : Val) : pyEq .null v = isNull v := by
  cases v <;> rfl

theorem isNull_eq_true (v : Val) (h : isNull v = true) : v = .null := by
  cases v <;> simp [isNull] at h ⊢

theorem all_congr {α : Type} (l : List α) (p q : α → Bool)
    (h : ∀ x ∈ l, p x = q x) : l.all p = l.all q := by
  induction l with
  | nil => rfl
  | cons x rest ih =>
    simp only [List.all_cons]
    rw [h x (List.mem_cons_self x rest),
      ih fun y hy => h y (List.mem_cons_of_mem x hy)]

/-- The filter semantics in the spec's vocabulary: every filter pair
`(k, v)` must have the field at `k` present and Python-equal to `v`, or
absent with `v` the Python `None`. -/
def specMatches (val : Obj) (f : Obj) : Bool :=
  f.all fun p =>
    match dictGet val p.1 with
    | some w => pyEq w p.2
    | none => isNull p.2

theorem matchesArgs_eq_specMatches (val : Obj) (f : Obj) :
    InMemoryStorage.matchesArgs val f = specMatches val f := by
  unfold InMemoryStorage.matchesArgs specMatches
  apply all_congr
  intro p _
  unfold InMemoryStorage.fieldMatches
  cases h : dictGet val p.1 with
  | none => simp [pyEq_null_left]
  | some w => simp

/-- C1 fails as stated: the store holds the single value `{}` in relation
"rel"; the filter is `{"name": None}`; the stored value has no field
"name", yet `find` returns it, because Python evaluates
`{}.get("name") == None` to `True`. -/
theorem find_absent_null_counterexample :
    dictGet ([] : Obj) "name" = none ∧
    ([] : Obj) ∈ ((InMemoryStorage.empty.put "rel" "k1" [] 0).find "rel"
      (some [("name", Val.null)])).1 := by
  constructor
  · rfl
  · have hres : ((InMemoryStorage.empty.put "rel" "k1" [] 0).find "rel"
        (some [("name", Val.null)])).1 = [([] : Obj)] := rfl
    rw [hres]
    exact List.mem_singleton.mpr rfl

/-- C1 (amended): for every relation with stored values and every
non-empty filter `f`, `find` returns exactly the stored values in which
every filter pair `(k, v)` has the field at `k` present and Python-equal
to `v`, or absent with `v` null; in particular a stored value missing
some key of `f` is excluded whenever that key's filter value is not null
(with a null filter value, the absent field compares equal to the filter
and the value can be returned). -/
theorem find_filter_exact (s : InMemoryStorage) (r : String) (f : Obj)
    (hf : f ≠ []) :
    ((s.find r (some f)).1 =
      ((relAt s r).map fun q => q.2.value).filter
        fun val => specMatches val f) ∧
    (∀ val : Obj, ∀ k : String, ∀ v : Val,
      (k, v) ∈ f → dictGet val k = none → v ≠ .null →
      val ∉ (s.find r (some f)).1) := by
  have hne : f.isEmpty = false := by
    cases f with
    | nil => exact absurd rfl hf
    | cons p rest => rfl
  have hfind : (s.find r (some f)).1 =
      ((relAt s r).map fun q => q.2.value).filter
        fun val => specMatches val f := by
    rw [InMemoryStorage.find_fst]
    show (if f.isEmpty then (relAt s r).map fun q => q.2.value
      else ((relAt s r).map fun q => q.2.value).filter
        fun v => InMemoryStorage.matchesArgs v f) = _
    rw [hne]
    simp only [Bool.false_eq_true, if_false]
    congr 1
    funext val
    exact matchesArgs_eq_specMatches val f
  refine ⟨hfind, ?_⟩
  intro val k v hmem hmiss hv hin
  rw [hfind] at hin
  have hmatch : specMatches val f = true := (List.mem_filter.mp hin).2
  have hpair := List.all_eq_true.mp hmatch (k, v) hmem
  simp only [hmiss] at hpair
  exact hv (isNull_eq_true v hpair)

/-- Witness for C1 (amended) at a concrete non-empty filter. -/
theorem find_filter_exact_witness :
    ([("g", Val.int 1)] : Obj) ≠ [] ∧
    ((InMemoryStorage.empty.put "r" "x" [("g", Val.int 1)] 0).find "r"
        (some [("g", Val.int 1)])).1 =
      ((relAt (InMemoryStorage.empty.put "r" "x" [("g", Val.int 1)] 0)
        "r").map fun q => q.2.value).filter
        (fun val => specMatches val [("g", Val.int 1)]) :=
  ⟨List.cons_ne_nil _ _,
   (find_filter_exact _ "r" _ (List.cons_ne_nil _ _)).1⟩

/-- Witness for C8 at a concrete instance: relations "a" and "b" are
distinct, and writing into "a" leaves a previously stored value in "b"
observable unchanged. -/
theorem relations_isolated_witness :
    ("a" : String) ≠ "b" ∧
    ((((Copf.InMemoryStorage.empty.put "b" "x" [("f", Copf.Val.int 1)] 5).put
        "a" "y" [] 7).get "b" "x").1 =
      ((Copf.InMemoryStorage.empty.put "b" "x" [("f", Copf.Val.int 1)] 5).get
        "b" "x").1) := by
  constructor
  · decide
  · exact (relations_isolated
      (Copf.InMemoryStorage.empty.put "b" "x" [("f", Copf.Val.int 1)] 5)
      "a" "b" "y" "x" [] 7 none (by decide)).1

/-!
Claim theorems for the handler dispatch.
-/

/-- C2: an action name that resolves to no attribute on the handler
instance makes `handle` return the structured error dict
`{"variant": "error", "message": "Unknown action: <a>"}` with the
storage untouched — a normal return (`Except.ok`), never an exception. -/
theorem handle_unknown_action (h : ConceptHandler) (a : String) (input : Val)
    (st : InMemoryStorage) (hres : getattrHandler h a = none) :
    h.handle a input st =
      .ok (.obj [("variant", .str "error"),
        ("message", .str ("Unknown action: " ++ a))], st) := by
  unfold ConceptHandler.handle
  rw [hres]
  rfl

/-- Witness for C2: a handler with no declared actions dispatching the
name "nonexistent". -/
theorem handle_unknown_action_witness :
    getattrHandler ⟨[]⟩ "nonexistent" = none ∧
    ConceptHandler.handle ⟨[]⟩ "nonexistent" (.obj [])
        InMemoryStorage.empty =
      .ok (.obj [("variant", .str "error"),
        ("message", .str "Unknown action: nonexistent")],
        InMemoryStorage.empty) :=
  ⟨rfl, handle_unknown_action ⟨[]⟩ "nonexistent" (.obj [])
    InMemoryStorage.empty rfl⟩

/-- C7: when the dispatched operation returns a dict containing a
"variant" key — whatever the variant, "error" included — `handle`
returns that dict and the operation's storage unchanged. -/
theorem handle_passthrough (h : ConceptHandler) (a : String) (input : Val)
    (st st' : InMemoryStorage) (v : Val)
    (f : Val → InMemoryStorage → Except String (Val × InMemoryStorage))
    (hres : getattrHandler h a = some (.asyncMethod f))
    (hcall : f input st = .ok (v, st'))
    (hvar : isDictWithVariant v = true) :
    h.handle a input st = .ok (v, st') := by
  unfold ConceptHandler.handle
  rw [hres]
  simp only [isCoroutineFunction, if_true, callAction]
  rw [hcall]
  simp only [hvar, if_true]

/-- The body of the witness handler's "fail" action: it deliberately
returns a domain-level error dict (mirroring the repository's test
`test_handler_passes_through_error_variant`). -/
def failBody : Val → InMemoryStorage → Except String (Val × InMemoryStorage) :=
  fun _ st => .ok (.obj [("variant", .str "error"),
    ("message", .str "intentional failure")], st)

/-- Witness for C7: the "fail" action's own error dict comes back
verbatim. -/
theorem handle_passthrough_witness :
    getattrHandler ⟨[("fail", .asyncMethod failBody)]⟩ "fail" =
      some (.asyncMethod failBody) ∧
    isDictWithVariant (.obj [("variant", .str "error"),
      ("message", .str "intentional failure")]) = true ∧
    ConceptHandler.handle ⟨[("fail", .asyncMethod failBody)]⟩ "fail"
        (.obj []) InMemoryStorage.empty =
      .ok (.obj [("variant", .str "error"),
        ("message", .str "intentional failure")], InMemoryStorage.empty) :=
  ⟨rfl, rfl,
   handle_passthrough ⟨[("fail", .asyncMethod failBody)]⟩ "fail" (.obj [])
     InMemoryStorage.empty InMemoryStorage.empty _ failBody rfl rfl rfl⟩

/-- C10: dispatch is not restricted to declared actions — for a handler
that declares no attribute named "handle" of its own, `getattr` resolves
the name "handle" to the inherited dispatcher, a coroutine function, so
the unknown-action branch is skipped; invoking it with the two arguments
`(input, storage)` raises TypeError to the caller, so `handle` is not
total over action-name strings. -/
theorem handle_resolves_dispatcher (h : ConceptHandler) (input : Val)
    (st : InMemoryStorage) (hnd : dictGet h.attrs "handle" = none) :
    getattrHandler h "handle" = some .inheritedHandle ∧
    isCoroutineFunction .inheritedHandle = true ∧
    h.handle "handle" input st = .error "TypeError" := by
  have hga : getattrHandler h "handle" = some .inheritedHandle := by
    unfold getattrHandler
    rw [hnd]
    rfl
  refine ⟨hga, rfl, ?_⟩
  unfold ConceptHandler.handle
  rw [hga]
  rfl

/-- Witness for C10: a handler with no declared actions. -/
theorem handle_resolves_dispatcher_witness :
    dictGet (ConceptHandler.mk []).attrs "handle" = none ∧
    ConceptHandler.handle ⟨[]⟩ "handle" (.obj []) InMemoryStorage.empty =
      .error "TypeError" :=
  ⟨rfl, (handle_resolves_dispatcher ⟨[]⟩ (.obj [])
    InMemoryStorage.empty rfl).2.2⟩

/-- Whenever `handle` returns normally, the returned value is a dict
containing a "variant" key — contract failures are themselves shaped
error dicts, and the pass-through branch checked the shape. -/
theorem handle_ok_shape (h : ConceptHandler) (a : String) (input : Val)
    (st st' : InMemoryStorage) (v : Val)
    (hres : h.handle a input st = Except.ok (v, st')) :
    ∃ fields w, v = .obj fields ∧ dictGet fields "variant" = some w := by
  unfold ConceptHandler.handle at hres
  cases hga : getattrHandler h a with
  | none =>
    rw [hga] at hres
    simp only [Except.ok.injEq, Prod.mk.injEq] at hres
    exact ⟨[("variant", .str "error"),
      ("message", .str ("Unknown action: " ++ a))], .str "error",
      hres.1.symm, rfl⟩
  | some m =>
    rw [hga] at hres
    cases m with
    | asyncMethod f =>
      simp only [isCoroutineFunction, if_true, callAction] at hres
      cases hc : f input st with
      | error e => rw [hc] at hres; cases hres
      | ok p =>
        obtain ⟨result, s2⟩ := p
        rw [hc] at hres
        simp only [] at hres
        by_cases hdv : isDictWithVariant result = true
        · rw [if_pos hdv] at hres
          simp only [Except.ok.injEq, Prod.mk.injEq] at hres
          cases result with
          | obj fields =>
            obtain ⟨w, hw⟩ := Option.isSome_iff_exists.mp
              (by simpa [isDictWithVariant, dictMem] using hdv)
            exact ⟨fields, w, hres.1.symm, hw⟩
          | null => simp [isDictWithVariant] at hdv
          | bool b => simp [isDictWithVariant] at hdv
          | int n => simp [isDictWithVariant] at hdv
          | str s => simp [isDictWithVariant] at hdv
          | arr xs => simp [isDictWithVariant] at hdv
        · rw [if_neg hdv] at hres
          simp only [Except.ok.injEq, Prod.mk.injEq] at hres
          refine ⟨[("variant", .str "error"),
            ("message", .str ("Action " ++ sq ++ a ++ sq ++
              " must return dict with " ++ sq ++ "variant" ++ sq ++
              " key"))], .str "error", hres.1.symm, rfl⟩
    | syncAttr =>
      simp only [isCoroutineFunction, Bool.false_eq_true, if_false] at hres
      simp only [Except.ok.injEq, Prod.mk.injEq] at hres
      exact ⟨[("variant", .str "error"),
        ("message", .str ("Action " ++ sq ++ a ++ sq ++ " must be async"))],
        .str "error", hres.1.symm, rfl⟩
    | inheritedHandle =>
      simp only [isCoroutineFunction, if_true, callAction] at hres
      cases hres

/-!
Claim theorems for the transport request handlers.
-/

/-- C3: every ActionCompletion `_handle_invoke` returns — on the success
path, on every dispatch contract failure, and on the unknown-concept
path — has an output payload that is a dict containing a "variant" key,
and the completion's top-level variant equals the variant inside the
output. -/
theorem invoke_output_variant (reg : Registry) (body : Obj)
    (freshId freshFlow ts : String) (comp : ActionCompletion)
    (reg' : Registry)
    (hres : handleInvoke reg body freshId freshFlow ts =
      Except.ok (comp, reg')) :
    ∃ fields, comp.output = .obj fields ∧
      dictGet fields "variant" = some comp.variant := by
  simp only [handleInvoke] at hres
  cases hlook : lookupRegistry reg (pyBodyGetD body "concept" (.str "")) with
  | none =>
    rw [hlook] at hres
    simp only [Except.ok.injEq, Prod.mk.injEq] at hres
    obtain ⟨hcomp, _⟩ := hres
    subst hcomp
    exact ⟨_, rfl, rfl⟩
  | some entry =>
    obtain ⟨cid, handler, storage⟩ := entry
    rw [hlook] at hres
    simp only [] at hres
    cases hact : pyBodyGetD body "action" (.str "") with
    | str a =>
      rw [hact] at hres
      simp only [] at hres
      cases hh : handler.handle a (pyBodyGetD body "input" (.obj []))
          storage with
      | error e => rw [hh] at hres; cases hres
      | ok p =>
        obtain ⟨result, storage'⟩ := p
        rw [hh] at hres
        simp only [] at hres
        obtain ⟨fields, w, hobj, hvar⟩ :=
          handle_ok_shape handler a _ storage storage' result hh
        simp only [Except.ok.injEq, Prod.mk.injEq] at hres
        obtain ⟨hcomp, _⟩ := hres
        subst hcomp
        refine ⟨fields, by simpa using hobj, ?_⟩
        show dictGet fields "variant" =
          some ((pyValGet result "variant").getD (.str "ok"))
        rw [hobj]
        simp only [pyValGet]
        rw [hvar]
        rfl
    | null => rw [hact] at hres; cases hres
    | bool b => rw [hact] at hres; cases hres
    | int n => rw [hact] at hres; cases hres
    | arr xs => rw [hact] at hres; cases hres
    | obj fs => rw [hact] at hres; cases hres

/-- Witness for C3: invoking against an empty registry yields the
unknown-concept completion, whose output carries the "error" variant
matching the top-level variant. -/
theorem invoke_output_variant_witness :
    handleInvoke [] [] "i" "f" "t" =
      Except.ok ({ id := .str "i",
                   concept := .str "",
                   action := .str "",
                   input := .obj [],
                   variant := .str "error",
                   output := .obj [("variant", .str "error"),
                     ("message", .str "Unknown concept: ")],
                   flow := .str "f",
                   timestamp := "t" }, []) ∧
    ∃ fields,
      ({ id := .str "i",
         concept := .str "",
         action := .str "",
         input := .obj [],
         variant := .str "error",
         output := .obj [("variant", .str "error"),
           ("message", .str "Unknown concept: ")],
         flow := .str "f",
         timestamp := "t" } : ActionCompletion).output = .obj fields ∧
      dictGet fields "variant" = some (Val.str "error") :=
  ⟨rfl, invoke_output_variant [] [] "i" "f" "t" _ [] rfl⟩

/-- C4: invoking a concept identifier absent from the registry yields a
normal completion — variant "error", output message naming the unknown
identifier, registry untouched — while `_handle_query` for the same
unregistered concept returns the empty sequence, also without error. -/
theorem unknown_concept (reg : Registry) (body : Obj) (cid : String)
    (freshId freshFlow ts : String)
    (hc : pyBodyGetD body "concept" (.str "") = .str cid)
    (hreg : dictGet reg cid = none) :
    handleInvoke reg body freshId freshFlow ts =
      .ok ({ id := pyBodyGetD body "id" (.str freshId),
             concept := .str cid,
             action := pyBodyGetD body "action" (.str ""),
             input := pyBodyGetD body "input" (.obj []),
             variant := .str "error",
             output := .obj [("variant", .str "error"),
               ("message", .str ("Unknown concept: " ++ cid))],
             flow := pyBodyGetD body "flow" (.str freshFlow),
             timestamp := ts }, reg) ∧
    handleQuery reg body = .ok ([], reg) := by
  have hlook : lookupRegistry reg (pyBodyGetD body "concept" (.str "")) =
      none := by
    rw [hc]
    show (dictGet reg cid).map (fun e => (cid, e.1, e.2)) = none
    rw [hreg]
    rfl
  constructor
  · simp only [handleInvoke]
    rw [hlook, hc]
    rfl
  · simp only [handleQuery]
    rw [hlook]

/-- Witness for C4: the identifier "urn:x" against the empty registry. -/
theorem unknown_concept_witness :
    dictGet ([] : Registry) "urn:x" = none ∧
    handleInvoke [] [("concept", Val.str "urn:x")] "i" "f" "t" =
      .ok ({ id := .str "i", concept := .str "urn:x", action := .str "",
             input := .obj [], variant := .str "error",
             output := .obj [("variant", .str "error"),
               ("message", .str "Unknown concept: urn:x")],
             flow := .str "f", timestamp := "t" }, []) ∧
    handleQuery [] [("concept", Val.str "urn:x")] = .ok ([], []) :=
  ⟨rfl,
   (unknown_concept [] [("concept", Val.str "urn:x")] "urn:x" "i" "f" "t"
     rfl rfl).1,
   (unknown_concept [] [("concept", Val.str "urn:x")] "urn:x" "i" "f" "t"
     rfl rfl).2⟩

end Copf
